import Mathlib

/-!
Shallow embedding of `src/neurology.rs` (crate `competitive_ae`): the
two-phase competitive autoencoder core (`WeightHolder`, `NeuronicInput`,
`CompAENeuron`, `CompAENetwork`).

Modelling conventions:
* `f32` is modelled as `ℚ` (exact arithmetic; the spec states all its
  numeric properties as exact equalities).
* `f32::sqrt` is modelled by `Rat.sqrt`, which agrees with real square
  root on perfect squares; every concrete evaluation below keeps the
  radicand a perfect square.
* Interior mutability (`Cell`, `Rc` sharing) becomes explicit state
  passing: each Rust method that mutates becomes a function returning
  the updated value(s).  The `Rc<WeightHolder>` and `Rc<NeuronicInput>`
  handles stored inside neurons/inputs become extra arguments.
* A Rust `unwrap` (panic) becomes `Option` with `none` for the panic.
-/

namespace CompAE

/-- Modelled from the spec: `MNIST_SIDE`, the side length of the fixed-size
square input grid, is a constant of the external `mccm` crate (not under
`src/`); MNIST images are 28 × 28. -/
def MNIST_SIDE : Nat := 28

/-- Embeds `NeuronicInput` (neurology.rs:9-14).  The `weight_holder: Rc<WeightHolder>`
field becomes an explicit argument of the operations that read it. -/
structure NeuronicInput where
  measure : ℚ
  total_weighted_prediction : ℚ
  current_reconstruction_error : ℚ
deriving DecidableEq

/-- Embeds `WeightHolder` (neurology.rs:64-66). -/
structure WeightHolder where
  total_weights : ℚ
deriving DecidableEq

/-- Embeds `WeightHolder::new` (neurology.rs:69-73). -/
def WeightHolder.new : WeightHolder := ⟨0⟩

/-- Embeds `WeightHolder::clear` (neurology.rs:75-77). -/
def WeightHolder.clear (_wh : WeightHolder) : WeightHolder := ⟨0⟩

/-- Embeds `WeightHolder::incr_weight` (neurology.rs:79-81). -/
def WeightHolder.incr_weight (wh : WeightHolder) (weight : ℚ) : WeightHolder :=
  ⟨wh.total_weights + weight⟩

/-- Embeds `WeightHolder::get_total_weight` (neurology.rs:83-85): the body is
the literal `1.0`, not a read of `total_weights`. -/
def WeightHolder.get_total_weight (_wh : WeightHolder) : ℚ := 1

/-- Embeds `NeuronicInput::new` (neurology.rs:17-24). -/
def NeuronicInput.new : NeuronicInput := ⟨0, 0, 0⟩

/-- Embeds `NeuronicInput::get_measure` (neurology.rs:26-28). -/
def NeuronicInput.get_measure (i : NeuronicInput) : ℚ := i.measure

/-- Embeds `NeuronicInput::load_input_measure` (neurology.rs:30-32). -/
def NeuronicInput.load_input_measure (i : NeuronicInput) (m : ℚ) : NeuronicInput :=
  { i with measure := m }

/-- Embeds `NeuronicInput::incr_total_weighted_prediction` (neurology.rs:34-36). -/
def NeuronicInput.incr_total_weighted_prediction (i : NeuronicInput) (wp : ℚ) : NeuronicInput :=
  { i with total_weighted_prediction := i.total_weighted_prediction + wp }

/-- Embeds `NeuronicInput::clear_total_weighted_prediction` (neurology.rs:38-40). -/
def NeuronicInput.clear_total_weighted_prediction (i : NeuronicInput) : NeuronicInput :=
  { i with total_weighted_prediction := 0 }

/-- Embeds `NeuronicInput::get_reconstruction` (neurology.rs:42-44). -/
def NeuronicInput.get_reconstruction (i : NeuronicInput) (wh : WeightHolder) : ℚ :=
  i.total_weighted_prediction / wh.get_total_weight

/-- Embeds `NeuronicInput::cache_reconstruction_error` (neurology.rs:48-52). -/
def NeuronicInput.cache_reconstruction_error (i : NeuronicInput) (wh : WeightHolder) :
    NeuronicInput :=
  let reconstruction := i.total_weighted_prediction / wh.get_total_weight
  { i with current_reconstruction_error := reconstruction - i.measure }

/-- Embeds `NeuronicInput::get_reconstruction_error` (neurology.rs:57-59). -/
def NeuronicInput.get_reconstruction_error (i : NeuronicInput) : ℚ :=
  i.current_reconstruction_error

/-- Embeds `CompAENeuron` (neurology.rs:88-95).  The `inputs` and
`weight_holder` shared handles become explicit arguments of the phase
functions. -/
structure CompAENeuron where
  name : String
  learning_constant : ℚ
  weights : List ℚ
  current_em : ℚ
deriving DecidableEq

/-- Embeds `CompAENeuron::new` (neurology.rs:98-117).  The stateful RNG
closure `gen_weight: fn() -> f32` is modelled as the sequence of values it
returns, indexed by call number. -/
def CompAENeuron.new (name : String) (learning_constant : ℚ) (gen_weight : Nat → ℚ)
    (num_inputs : Nat) : CompAENeuron :=
  { name := name
    learning_constant := learning_constant
    weights := (List.range num_inputs).map gen_weight
    current_em := 0 }

/-- Embeds `CompAENeuron::compute_em` (neurology.rs:164-177): fold over
`inputs.zip(weights)` accumulating the weight sum and the weighted measure
sum, then divide by the square root of the weight sum. -/
def CompAENeuron.compute_em (n : CompAENeuron) (inputs : List NeuronicInput) : ℚ :=
  let pairs := inputs.zip n.weights
  let total_weight := (pairs.map fun p => p.2).sum
  let total_weighted_em := (pairs.map fun p => p.2 * p.1.get_measure).sum
  total_weighted_em / Rat.sqrt total_weight

/-- The loop of `run_prediction_phase` (neurology.rs:124-126): walk
`inputs.zip(weights)`, adding `em * weight` into each zipped input's
accumulator; inputs beyond the zipped prefix are left untouched. -/
def applyPredictions (em : ℚ) : List NeuronicInput → List ℚ → List NeuronicInput
  | [], _ => []
  | inps, [] => inps
  | inp :: inps, w :: ws =>
      inp.incr_total_weighted_prediction (em * w) :: applyPredictions em inps ws

/-- Embeds `CompAENeuron::run_prediction_phase` (neurology.rs:119-127):
returns the updated neuron, the updated (shared) input list and the
updated (shared) weight holder. -/
def CompAENeuron.run_prediction_phase (n : CompAENeuron) (inputs : List NeuronicInput)
    (wh : WeightHolder) : CompAENeuron × List NeuronicInput × WeightHolder :=
  let em := n.compute_em inputs
  ({ n with current_em := em }, applyPredictions em inputs n.weights, wh.incr_weight em)

/-- The local `adjustment_size` of `run_learning_phase` (neurology.rs:130-131). -/
def CompAENeuron.adjustment_size (n : CompAENeuron) (wh : WeightHolder) : ℚ :=
  n.current_em / wh.get_total_weight * n.learning_constant

/-- The loop of `run_learning_phase` (neurology.rs:133-139): walk
`inputs.zip(weights)`, replacing each zipped weight by
`weight + (-1 * error * adjustment)` and flooring at 0; weights beyond the
zipped prefix are left untouched. -/
def applyLearning (adj : ℚ) : List ℚ → List NeuronicInput → List ℚ
  | [], _ => []
  | ws, [] => ws
  | w :: ws, inp :: inps =>
      let w1 := w + (-1 * inp.get_reconstruction_error * adj)
      (if w1 < 0 then 0 else w1) :: applyLearning adj ws inps

/-- Embeds `CompAENeuron::run_learning_phase` (neurology.rs:129-140). -/
def CompAENeuron.run_learning_phase (n : CompAENeuron) (inputs : List NeuronicInput)
    (wh : WeightHolder) : CompAENeuron :=
  { n with weights := applyLearning (n.adjustment_size wh) n.weights inputs }

/-- Embeds `CompAENeuron::to_serializable` (neurology.rs:142-157): the
`unwrap` on `weights.get((j * MNIST_SIDE) + i)` is modelled by `Option`
(`none` = panic). -/
def CompAENeuron.to_serializable (n : CompAENeuron) : Option (List (List ℚ)) :=
  (List.range MNIST_SIDE).mapM fun j =>
    (List.range MNIST_SIDE).mapM fun i => n.weights.get? (j * MNIST_SIDE + i)

/-- Embeds `CompAENetwork` (neurology.rs:180-184). -/
structure CompAENetwork where
  neurons : List CompAENeuron
  inputs : List NeuronicInput
  weight_holder : WeightHolder
deriving DecidableEq

/-- Embeds `CompAENetwork::new` (neurology.rs:187-212).  The shared RNG
closure `gen_synapse_weight` is modelled as the sequence of values it
returns; neuron `i` consumes draws `i * num_inputs .. i * num_inputs + num_inputs - 1`. -/
def CompAENetwork.new (learning_constant : ℚ) (num_neurons num_inputs : Nat)
    (gen_synapse_weight : Nat → ℚ) : CompAENetwork :=
  { neurons := (List.range num_neurons).map fun i =>
      CompAENeuron.new (toString i) learning_constant
        (fun k => gen_synapse_weight (i * num_inputs + k)) num_inputs
    inputs := (List.range num_inputs).map fun _ => NeuronicInput.new
    weight_holder := WeightHolder.new }

/-- Embeds `CompAENetwork::load_val` (neurology.rs:237-246): flat index
`MNIST_SIDE * y + x`; the `unwrap` on `inputs.get(..)` is modelled by
`Option` (`none` = panic); the holder is cleared exactly when `(x, y) = (0, 0)`. -/
def CompAENetwork.load_val (net : CompAENetwork) (x y : Nat) (val : ℚ) :
    Option CompAENetwork :=
  let input_index := MNIST_SIDE * y + x
  match net.inputs.get? input_index with
  | none => none
  | some inp =>
      some { net with
        inputs := net.inputs.set input_index
          ((inp.load_input_measure val).clear_total_weighted_prediction)
        weight_holder :=
          if (x, y) = (0, 0) then net.weight_holder.clear else net.weight_holder }

/-- The first loop of `perform_adjustment` (neurology.rs:250-252): each
neuron in order runs its prediction phase against the shared inputs and
holder. -/
def predictionSweep : List CompAENeuron → List NeuronicInput → WeightHolder →
    List CompAENeuron × List NeuronicInput × WeightHolder
  | [], inputs, wh => ([], inputs, wh)
  | n :: rest, inputs, wh =>
      let r := n.run_prediction_phase inputs wh
      let rr := predictionSweep rest r.2.1 r.2.2
      (r.1 :: rr.1, rr.2.1, rr.2.2)

/-- The state of the network immediately after the prediction phase of
`perform_adjustment` (neurology.rs:249-252). -/
def CompAENetwork.prediction_phase (net : CompAENetwork) : CompAENetwork :=
  let r := predictionSweep net.neurons net.inputs net.weight_holder
  { neurons := r.1, inputs := r.2.1, weight_holder := r.2.2 }

/-- The error-caching loop of `perform_adjustment` (neurology.rs:254-257). -/
def CompAENetwork.cache_errors (net : CompAENetwork) : CompAENetwork :=
  { net with inputs := net.inputs.map fun i => i.cache_reconstruction_error net.weight_holder }

/-- The learning loop of `perform_adjustment` (neurology.rs:259-262). -/
def CompAENetwork.learning_phase (net : CompAENetwork) : CompAENetwork :=
  { net with neurons := net.neurons.map fun n => n.run_learning_phase net.inputs net.weight_holder }

/-- Embeds `CompAENetwork::perform_adjustment` (neurology.rs:248-263). -/
def CompAENetwork.perform_adjustment (net : CompAENetwork) : CompAENetwork :=
  net.prediction_phase.cache_errors.learning_phase

/-- One `clear`-or-`incr_weight` call on a `WeightHolder`, for stating
properties over arbitrary call sequences. -/
inductive WHOp where
  | clear : WHOp
  | incr : ℚ → WHOp
deriving DecidableEq

/-- Applies one `WHOp`. -/
def WeightHolder.applyOp (wh : WeightHolder) : WHOp → WeightHolder
  | .clear => wh.clear
  | .incr w => wh.incr_weight w

/-- Applies a sequence of `clear` / `incr_weight` calls in order. -/
def WeightHolder.applyOps (wh : WeightHolder) (ops : List WHOp) : WeightHolder :=
  ops.foldl WeightHolder.applyOp wh

/-- The row-major pixel order `(0,0), (1,0), …` in which the harness loads
one image: all pixels of row `y = 0` first, `(0, 0)` first of all. -/
def pixelCoords : List (Nat × Nat) :=
  (List.range MNIST_SIDE).flatMap fun y => (List.range MNIST_SIDE).map fun x => (x, y)

/-- Loads one whole image (one `load_val` per pixel, `(0,0)` first); an
image is modelled as its intensity function `(x, y) ↦ value`. -/
def CompAENetwork.load_image (net : CompAENetwork) (img : Nat → Nat → ℚ) :
    Option CompAENetwork :=
  pixelCoords.foldlM (fun acc p => acc.load_val p.1 p.2 (img p.1 p.2)) net

/-- One full training step of the harness: load an image, then run
`perform_adjustment` once. -/
def CompAENetwork.train_step (net : CompAENetwork) (img : Nat → Nat → ℚ) :
    Option CompAENetwork :=
  (net.load_image img).map CompAENetwork.perform_adjustment

/-- A training run over a list of images. -/
def CompAENetwork.train_run (net : CompAENetwork) (imgs : List (Nat → Nat → ℚ)) :
    Option CompAENetwork :=
  imgs.foldlM CompAENetwork.train_step net

/-- The configuration of a neuron fixed by construction: name, learning
constant and weight vector (everything except the transient `current_em`). -/
def CompAENeuron.config (n : CompAENeuron) : String × ℚ × List ℚ :=
  (n.name, n.learning_constant, n.weights)

/-- The part of an input's state written by loading: measure and
accumulated prediction (everything except the cached error). -/
def NeuronicInput.obs (i : NeuronicInput) : ℚ × ℚ :=
  (i.measure, i.total_weighted_prediction)

/-- The loading-determined projection of the whole network: neuron
configurations plus input observables (everything except the transient
`current_em`, cached errors and the holder's dead `total_weights` field). -/
def netObs (net : CompAENetwork) : List (String × ℚ × List ℚ) × List (ℚ × ℚ) :=
  (net.neurons.map CompAENeuron.config, net.inputs.map NeuronicInput.obs)

/-- A one-neuron, one-input network used as a concrete evaluation point:
weight 4 and measure 1, so the prediction phase computes the activation
`4 / √4 = 2`. -/
def cxNet : CompAENetwork :=
  { neurons := [{ name := "0", learning_constant := 1, weights := [4], current_em := 0 }]
    inputs := [{ measure := 1, total_weighted_prediction := 0, current_reconstruction_error := 0 }]
    weight_holder := ⟨0⟩ }

/-- The neuron of the spec's end-to-end scenario (§8): learning rate 1/10
and four weights of 1/4. -/
def scNeuron : CompAENeuron :=
  { name := "0", learning_constant := 1/10, weights := [1/4, 1/4, 1/4, 1/4], current_em := 0 }

/-- The end-to-end scenario network before loading: one neuron, four fresh
inputs, fresh holder. -/
def scNet0 : CompAENetwork :=
  { neurons := [scNeuron]
    inputs := [NeuronicInput.new, NeuronicInput.new, NeuronicInput.new, NeuronicInput.new]
    weight_holder := WeightHolder.new }

/-- The scenario network after loading the measures `[1, 0, 0, 0]` through
`load_val` (pixels `(0,0) … (3,0)`, flat indices 0–3). -/
def scLoaded : Option CompAENetwork :=
  (((scNet0.load_val 0 0 1).bind fun n => n.load_val 1 0 0).bind
      fun n => n.load_val 2 0 0).bind fun n => n.load_val 3 0 0

/-- A network with the full 784-pixel input array (and no neurons), used
for concrete `load_val` evaluations. -/
def net784 : CompAENetwork :=
  { neurons := [], inputs := List.replicate 784 NeuronicInput.new, weight_holder := ⟨0⟩ }

end CompAE

/-! Theorems. -/

namespace CompAE

/-- Flooring at 0 (`if w < 0 { 0 } else { w }`) is `max w 0`. -/
theorem clamp_eq_max (w : ℚ) : (if w < 0 then 0 else w) = max w 0 := by
  rcases lt_or_le w 0 with h | h
  · simp [if_pos h, max_eq_right h.le]
  · simp [if_neg (not_lt.mpr h), max_eq_left h]

/-- Entry `i` of the learning loop's output, when weight `i` and input `i`
both exist. -/
theorem applyLearning_get? (adj : ℚ) :
    ∀ (ws : List ℚ) (inps : List NeuronicInput) (i : Nat) (w err : ℚ),
      ws.get? i = some w →
      (inps.get? i).map NeuronicInput.get_reconstruction_error = some err →
      (applyLearning adj ws inps).get? i = some (max (w + (-1 * err * adj)) 0)
  | [], _, i, w, err => by intro hw _; simp at hw
  | _ :: _, [], i, w, err => by intro _ he; simp at he
  | w0 :: ws, inp :: inps, 0, w, err => by
      intro hw he
      simp only [List.get?, Option.map_some', Option.some.injEq] at hw he
      subst hw
      subst he
      show some (if w0 + (-1 * inp.get_reconstruction_error * adj) < 0 then 0
          else w0 + (-1 * inp.get_reconstruction_error * adj)) = _
      rw [clamp_eq_max]
  | w0 :: ws, inp :: inps, (i+1), w, err => by
      intro hw he
      simp only [List.get?] at hw he
      simpa [applyLearning, List.get?] using
        applyLearning_get? adj ws inps i w err hw he

/-- The learning loop keeps the weight-vector length. -/
theorem applyLearning_length (adj : ℚ) :
    ∀ (ws : List ℚ) (inps : List NeuronicInput),
      (applyLearning adj ws inps).length = ws.length
  | [], _ => by simp [applyLearning]
  | _ :: _, [] => by simp [applyLearning]
  | w0 :: ws, inp :: inps => by
      simp [applyLearning, applyLearning_length adj ws inps]

/-- Square root of 1 in the rational model. -/
theorem rat_sqrt_one : Rat.sqrt 1 = 1 := by
  simp [Rat.sqrt]

/-- Square root of 4 in the rational model. -/
theorem rat_sqrt_four : Rat.sqrt 4 = 2 := by
  simp [Rat.sqrt]
  norm_num [Int.sqrt]

/-- The weight holder after the prediction sweep: the old field plus the
sum of the swept neurons' fresh activations. -/
theorem predictionSweep_total_weights :
    ∀ (ns : List CompAENeuron) (ins : List NeuronicInput) (wh : WeightHolder),
      (predictionSweep ns ins wh).2.2.total_weights
        = wh.total_weights + ((predictionSweep ns ins wh).1.map CompAENeuron.current_em).sum
  | [], ins, wh => by simp [predictionSweep]
  | n :: rest, ins, wh => by
      simp only [predictionSweep, CompAENeuron.run_prediction_phase, List.map_cons,
        List.sum_cons]
      rw [predictionSweep_total_weights rest]
      simp [WeightHolder.incr_weight]
      ring

/-- Claim C1 (amended): immediately after the prediction phase, the
holder's internal `total_weights` field equals the sum of all neurons'
`current_em` (starting from a cleared holder), while the `total()`
accessor `get_total_weight` returns the constant 1. -/
theorem C1_total_weights_field_eq_activation_sum (net : CompAENetwork)
    (h : net.weight_holder.total_weights = 0) :
    net.prediction_phase.weight_holder.total_weights
      = (net.prediction_phase.neurons.map CompAENeuron.current_em).sum ∧
    net.prediction_phase.weight_holder.get_total_weight = 1 := by
  refine ⟨?_, rfl⟩
  have := predictionSweep_total_weights net.neurons net.inputs net.weight_holder
  simpa [CompAENetwork.prediction_phase, h] using this

/-- Claim C1 witness: the amended statement evaluated on `cxNet`. -/
theorem C1_witness :
    cxNet.prediction_phase.weight_holder.total_weights
      = (cxNet.prediction_phase.neurons.map CompAENeuron.current_em).sum ∧
    cxNet.prediction_phase.weight_holder.get_total_weight = 1 :=
  C1_total_weights_field_eq_activation_sum cxNet rfl

/-- Claim C1 counterexample: on `cxNet` (one neuron, activation 2,
cleared holder) the `total()` accessor returns 1 while the activation sum
is 2, so the accessor does not equal the sum of activations. -/
theorem C1_counterexample :
    cxNet.weight_holder.total_weights = 0 ∧
    cxNet.prediction_phase.weight_holder.get_total_weight
      ≠ (cxNet.prediction_phase.neurons.map CompAENeuron.current_em).sum := by
  refine ⟨rfl, ?_⟩
  simp [cxNet, CompAENetwork.prediction_phase, predictionSweep,
    CompAENeuron.run_prediction_phase, CompAENeuron.compute_em,
    NeuronicInput.get_measure, WeightHolder.get_total_weight,
    WeightHolder.incr_weight, rat_sqrt_four]
  norm_num

/-- Claim C2 (confirmed): after any sequence of `clear` / `incr_weight`
calls `get_total_weight` returns 1; consequently `get_reconstruction`
returns the accumulated prediction unchanged and is independent of the
holder state, and `adjustment_size` is `current_em * learning_constant`,
also independent of the holder state. -/
theorem C2_get_total_weight_always_one (wh wh2 : WeightHolder) (ops : List WHOp)
    (inp : NeuronicInput) (n : CompAENeuron) :
    (wh.applyOps ops).get_total_weight = 1 ∧
    inp.get_reconstruction (wh.applyOps ops) = inp.total_weighted_prediction ∧
    inp.get_reconstruction wh = inp.get_reconstruction wh2 ∧
    n.adjustment_size (wh.applyOps ops) = n.current_em * n.learning_constant ∧
    n.adjustment_size wh = n.adjustment_size wh2 := by
  refine ⟨rfl, ?_, rfl, ?_, rfl⟩
  · simp [NeuronicInput.get_reconstruction, WeightHolder.get_total_weight]
  · simp [CompAENeuron.adjustment_size, WeightHolder.get_total_weight]

/-- Claim C3 (amended): `get_reconstruction` divides the accumulated
prediction by `get_total_weight`, but that divisor is the constant 1 —
never 0 — so the result is the accumulated prediction itself, finite even
before any neuron has produced a positive activation. -/
theorem C3_reconstruction_division_by_constant_one (inp : NeuronicInput) (wh : WeightHolder) :
    inp.get_reconstruction wh = inp.total_weighted_prediction / wh.get_total_weight ∧
    wh.get_total_weight ≠ 0 ∧
    inp.get_reconstruction wh = inp.total_weighted_prediction := by
  refine ⟨rfl, by norm_num [WeightHolder.get_total_weight], ?_⟩
  simp [NeuronicInput.get_reconstruction, WeightHolder.get_total_weight]

/-- Claim C3 counterexample: a fresh input (no activation accumulated) and
a holder with `total_weights = 0` still give a perfectly defined
reconstruction, 0, because the divisor `get_total_weight` is 1, not 0. -/
theorem C3_counterexample :
    NeuronicInput.new.get_reconstruction ⟨0⟩ = 0 ∧
    (WeightHolder.mk 0).get_total_weight ≠ 0 := by
  refine ⟨?_, ?_⟩
  · simp [NeuronicInput.new, NeuronicInput.get_reconstruction, WeightHolder.get_total_weight]
  · norm_num [WeightHolder.get_total_weight]

end CompAE

namespace CompAE

/-- Claim C4 (amended): `run_learning_phase` computes
`adjustment_size = (current_em / get_total_weight()) * learning_constant`,
but `get_total_weight()` is the constant 1 — not the accumulated sum of
activations — so the adjustment equals `current_em * learning_constant`;
each aligned weight is then updated by `weight += -1 * error * adjustment`
and clamped to `max(weight, 0)`. -/
theorem C4_learning_update_formula (n : CompAENeuron) (inputs : List NeuronicInput)
    (wh : WeightHolder) (i : Nat) (w err : ℚ)
    (hw : n.weights.get? i = some w)
    (he : (inputs.get? i).map NeuronicInput.get_reconstruction_error = some err) :
    n.adjustment_size wh = n.current_em * n.learning_constant ∧
    (n.run_learning_phase inputs wh).weights.get? i
      = some (max (w + (-1 * err * (n.current_em * n.learning_constant))) 0) := by
  have hadj : n.adjustment_size wh = n.current_em * n.learning_constant := by
    simp [CompAENeuron.adjustment_size, WeightHolder.get_total_weight]
  refine ⟨hadj, ?_⟩
  show (applyLearning (n.adjustment_size wh) n.weights inputs).get? i = _
  rw [hadj]
  exact applyLearning_get? _ n.weights inputs i w err hw he

/-- Claim C4 witness: the amended update formula at a concrete neuron
(weight 2, activation 3, learning constant 1) and input (cached error 5):
the updated weight is `max (2 - 15) 0`. -/
theorem C4_witness :
    ({ name := "n", learning_constant := 1, weights := [2], current_em := 3 }
        : CompAENeuron).adjustment_size ⟨7⟩ = 3 * 1 ∧
    (({ name := "n", learning_constant := 1, weights := [2], current_em := 3 }
        : CompAENeuron).run_learning_phase [⟨0, 0, 5⟩] ⟨7⟩).weights.get? 0
      = some (max (2 + (-1 * 5 * (3 * 1))) 0) :=
  C4_learning_update_formula _ _ _ 0 2 5 rfl rfl

/-- Claim C4 counterexample: on `cxNet` after the prediction phase the
single neuron has activation 2 and the activation sum is 2, so the
claim's adjustment `(current_activation / Σ activations) * learning_rate`
is 1, whereas the code's `adjustment_size` — dividing by the constant
`get_total_weight() = 1` — is 2. -/
theorem C4_counterexample :
    (cxNet.prediction_phase.neurons.map fun n =>
        n.adjustment_size cxNet.prediction_phase.weight_holder) = [2] ∧
    (cxNet.prediction_phase.neurons.map fun n =>
        n.current_em / ((cxNet.prediction_phase.neurons.map CompAENeuron.current_em).sum)
          * n.learning_constant) = [1] ∧
    (2 : ℚ) ≠ 1 := by
  refine ⟨?_, ?_, by norm_num⟩ <;>
  · simp [cxNet, CompAENetwork.prediction_phase, predictionSweep,
      CompAENeuron.run_prediction_phase, CompAENeuron.compute_em,
      CompAENeuron.adjustment_size, NeuronicInput.get_measure,
      WeightHolder.get_total_weight, WeightHolder.incr_weight, rat_sqrt_four]
    norm_num

/-- Claim C8 (confirmed): every weight written by `run_learning_phase` is
the clamp `max (unclamped update) 0`, hence nonnegative; when the
unclamped update is negative the stored weight is exactly 0, however
negative the update; and the weight-vector length is preserved, so the
guarantee holds again on every repeated `learn()` call. -/
theorem C8_weight_nonneg_after_learning (n : CompAENeuron) (inputs : List NeuronicInput)
    (wh : WeightHolder) (i : Nat) (w err : ℚ)
    (hw : n.weights.get? i = some w)
    (he : (inputs.get? i).map NeuronicInput.get_reconstruction_error = some err) :
    ((n.run_learning_phase inputs wh).weights.get? i
        = some (max (w + (-1 * err * n.adjustment_size wh)) 0)) ∧
    0 ≤ max (w + (-1 * err * n.adjustment_size wh)) 0 ∧
    (w + (-1 * err * n.adjustment_size wh) < 0 →
      (n.run_learning_phase inputs wh).weights.get? i = some 0) ∧
    (n.run_learning_phase inputs wh).weights.length = n.weights.length := by
  have key : (n.run_learning_phase inputs wh).weights.get? i
      = some (max (w + (-1 * err * n.adjustment_size wh)) 0) := by
    show (applyLearning (n.adjustment_size wh) n.weights inputs).get? i = _
    exact applyLearning_get? _ n.weights inputs i w err hw he
  refine ⟨key, le_max_right _ _, ?_, ?_⟩
  · intro hneg
    rw [key, max_eq_right hneg.le]
  · show (applyLearning (n.adjustment_size wh) n.weights inputs).length = _
    exact applyLearning_length _ n.weights inputs

/-- Claim C8 witness: the clamp evaluated at a concrete neuron (weight 1,
activation 1, learning constant 1) against an input with cached error 10:
the unclamped update is negative, so the stored weight is exactly 0. -/
theorem C8_witness :
    (((CompAENeuron.mk "n" 1 [1] 1).run_learning_phase [⟨0, 0, 10⟩] ⟨0⟩).weights.get? 0
        = some (max (1 + (-1 * 10 * ((CompAENeuron.mk "n" 1 [1] 1).adjustment_size ⟨0⟩))) 0)) ∧
    0 ≤ max (1 + (-1 * 10 * ((CompAENeuron.mk "n" 1 [1] 1).adjustment_size ⟨0⟩))) 0 ∧
    (1 + (-1 * 10 * ((CompAENeuron.mk "n" 1 [1] 1).adjustment_size ⟨0⟩)) < 0 →
      ((CompAENeuron.mk "n" 1 [1] 1).run_learning_phase [⟨0, 0, 10⟩] ⟨0⟩).weights.get? 0
        = some 0) ∧
    ((CompAENeuron.mk "n" 1 [1] 1).run_learning_phase [⟨0, 0, 10⟩] ⟨0⟩).weights.length
      = (CompAENeuron.mk "n" 1 [1] 1).weights.length :=
  C8_weight_nonneg_after_learning _ _ _ 0 1 10 rfl rfl

end CompAE

namespace CompAE

/-- Loading the scenario measures `[1, 0, 0, 0]` succeeds and produces the
expected measures with cleared accumulators and cleared holder. -/
theorem scLoaded_eq : scLoaded
    = some (CompAENetwork.mk [scNeuron] [⟨1, 0, 0⟩, ⟨0, 0, 0⟩, ⟨0, 0, 0⟩, ⟨0, 0, 0⟩] ⟨0⟩) := rfl

/-- Claim C5 (amended): in the spec's end-to-end scenario (1 neuron, 4
weights of 1/4, learning rate 1/10, measures `[1,0,0,0]`) the activation
is 1/4 as claimed, but: the `total()` accessor returns the constant 1
(only the internal accumulated field holds 1/4); each input's accumulated
prediction is 1/16; the reconstruction of input 0 is 1/16, not 1/4; its
cached error is -15/16, not -3/4; and after `learn()` `weight[0]` is
35/128 = 0.2734375, not 0.325. -/
theorem C5_scenario_values :
    (scLoaded.map fun m => m.prediction_phase.neurons.map CompAENeuron.current_em)
      = some [1/4] ∧
    (scLoaded.map fun m => m.prediction_phase.weight_holder.get_total_weight) = some 1 ∧
    (scLoaded.map fun m => m.prediction_phase.weight_holder.total_weights) = some (1/4) ∧
    (scLoaded.map fun m => m.prediction_phase.inputs.map
        NeuronicInput.total_weighted_prediction) = some [1/16, 1/16, 1/16, 1/16] ∧
    (scLoaded.map fun m => m.prediction_phase.inputs.map fun i =>
        i.get_reconstruction m.prediction_phase.weight_holder) = some [1/16, 1/16, 1/16, 1/16] ∧
    (scLoaded.map fun m => m.prediction_phase.cache_errors.inputs.map
        NeuronicInput.current_reconstruction_error) = some [-(15/16), 1/16, 1/16, 1/16] ∧
    (scLoaded.map fun m => m.perform_adjustment.neurons.map CompAENeuron.weights)
      = some [[35/128, 159/640, 159/640, 159/640]] := by
  rw [scLoaded_eq]
  norm_num [scNeuron, CompAENetwork.prediction_phase, CompAENetwork.perform_adjustment,
    CompAENetwork.cache_errors, CompAENetwork.learning_phase, predictionSweep,
    CompAENeuron.run_prediction_phase, CompAENeuron.compute_em, CompAENeuron.run_learning_phase,
    CompAENeuron.adjustment_size, applyPredictions, applyLearning,
    NeuronicInput.incr_total_weighted_prediction, NeuronicInput.cache_reconstruction_error,
    NeuronicInput.get_reconstruction, NeuronicInput.get_reconstruction_error,
    NeuronicInput.get_measure, WeightHolder.incr_weight, WeightHolder.get_total_weight,
    rat_sqrt_one]

/-- Claim C5 counterexample: in the same scenario the claim's predicted
values fail — `total()` returns 1, not 0.25, and the learned `weight[0]`
is 35/128, not 0.325 = 13/40. -/
theorem C5_counterexample :
    (scLoaded.map fun m => m.prediction_phase.weight_holder.get_total_weight)
      ≠ some (1/4) ∧
    (scLoaded.map fun m => m.perform_adjustment.neurons.map fun n2 => n2.weights.get? 0)
      ≠ some [some (13/40)] := by
  rw [scLoaded_eq]
  constructor
  · intro hcl
    rw [Option.map_some', Option.some.injEq] at hcl
    norm_num [WeightHolder.get_total_weight] at hcl
  · intro hcl
    rw [Option.map_some', Option.some.injEq] at hcl
    norm_num [scNeuron, CompAENetwork.prediction_phase, CompAENetwork.perform_adjustment,
      CompAENetwork.cache_errors, CompAENetwork.learning_phase, predictionSweep,
      CompAENeuron.run_prediction_phase, CompAENeuron.compute_em,
      CompAENeuron.run_learning_phase, CompAENeuron.adjustment_size, applyPredictions,
      applyLearning, NeuronicInput.incr_total_weighted_prediction,
      NeuronicInput.cache_reconstruction_error, NeuronicInput.get_reconstruction,
      NeuronicInput.get_reconstruction_error, NeuronicInput.get_measure,
      WeightHolder.incr_weight, WeightHolder.get_total_weight, rat_sqrt_one] at hcl

end CompAE

namespace CompAE

/-- Claim C6 (confirmed): for in-range `x, y` and a full-size input array,
`load_val x y v` succeeds and touches exactly the input at flat index
`MNIST_SIDE * y + x` — storing `v` as its measure and zeroing its
accumulated prediction — leaves every other input and the neurons
unchanged, and clears the shared holder iff `(x, y) = (0, 0)`. -/
theorem C6_load_pixel_targets_flat_index (net : CompAENetwork) (x y : Nat) (v : ℚ)
    (hx : x < MNIST_SIDE) (hy : y < MNIST_SIDE)
    (hlen : net.inputs.length = MNIST_SIDE * MNIST_SIDE) :
    ∃ net2, net.load_val x y v = some net2 ∧
      (∀ inp, net.inputs.get? (MNIST_SIDE * y + x) = some inp →
        net2.inputs.get? (MNIST_SIDE * y + x)
          = some { inp with measure := v, total_weighted_prediction := 0 }) ∧
      (∀ j, j ≠ MNIST_SIDE * y + x → net2.inputs.get? j = net.inputs.get? j) ∧
      net2.neurons = net.neurons ∧
      net2.weight_holder
        = (if (x, y) = ((0 : Nat), (0 : Nat)) then net.weight_holder.clear
           else net.weight_holder) := by
  have hside : MNIST_SIDE = 28 := rfl
  have hidx : MNIST_SIDE * y + x < net.inputs.length := by
    rw [hlen]
    simp only [hside] at hx hy ⊢
    omega
  have hinp0 := List.get?_eq_get hidx
  refine ⟨{ net with
      inputs := net.inputs.set (MNIST_SIDE * y + x)
        (((net.inputs.get ⟨MNIST_SIDE * y + x, hidx⟩).load_input_measure
          v).clear_total_weighted_prediction)
      weight_holder := if (x, y) = (0, 0) then net.weight_holder.clear
        else net.weight_holder },
    ?_, ?_, ?_, rfl, rfl⟩
  · simp only [CompAENetwork.load_val, hinp0]
  · intro inp hinp
    rw [hinp0, Option.some.injEq] at hinp
    subst hinp
    show (net.inputs.set (MNIST_SIDE * y + x) _).get? (MNIST_SIDE * y + x) = _
    rw [List.get?_set_eq_of_lt _ hidx]
    rfl
  · intro j hj
    exact List.get?_set_ne _ _ (Ne.symm hj)

/-- Claim C6 witness: loading pixel `(1, 0)` with value 5 into the
784-input network targets flat index 1 and leaves the holder alone. -/
theorem C6_witness :
    ∃ net2, net784.load_val 1 0 5 = some net2 ∧
      (∀ inp, net784.inputs.get? (MNIST_SIDE * 0 + 1) = some inp →
        net2.inputs.get? (MNIST_SIDE * 0 + 1)
          = some { inp with measure := 5, total_weighted_prediction := 0 }) ∧
      (∀ j, j ≠ MNIST_SIDE * 0 + 1 → net2.inputs.get? j = net784.inputs.get? j) ∧
      net2.neurons = net784.neurons ∧
      net2.weight_holder
        = (if ((1 : Nat), (0 : Nat)) = ((0 : Nat), (0 : Nat)) then net784.weight_holder.clear
           else net784.weight_holder) :=
  C6_load_pixel_targets_flat_index net784 1 0 5 (by decide) (by decide)
    (by
      rw [show net784.inputs = List.replicate 784 NeuronicInput.new from rfl,
        List.length_replicate]
      rfl)

/-- Claim C7 (amended): `load_val x y v` faults (panics on the `unwrap`)
exactly when the flat index `MNIST_SIDE * y + x` is at least the number of
inputs; an out-of-range `x` whose flat index still lands inside the input
array does not fault but silently writes the value to the input at that
flat index. -/
theorem C7_fault_iff_flat_index_out_of_bounds (net : CompAENetwork) (x y : Nat) (v : ℚ) :
    ((net.load_val x y v).isSome ↔ MNIST_SIDE * y + x < net.inputs.length) ∧
    ((net.load_val x y v).bind fun n2 => n2.inputs.get? (MNIST_SIDE * y + x)).map
        NeuronicInput.measure
      = (if MNIST_SIDE * y + x < net.inputs.length then some v else none) := by
  by_cases hlt : MNIST_SIDE * y + x < net.inputs.length
  · have hinp0 := List.get?_eq_get hlt
    have hload : net.load_val x y v = some { net with
        inputs := net.inputs.set (MNIST_SIDE * y + x)
          (((net.inputs.get ⟨MNIST_SIDE * y + x, hlt⟩).load_input_measure
            v).clear_total_weighted_prediction)
        weight_holder := if (x, y) = (0, 0) then net.weight_holder.clear
          else net.weight_holder } := by
      simp only [CompAENetwork.load_val, hinp0]
    rw [hload, if_pos hlt]
    refine ⟨⟨fun _ => hlt, fun _ => rfl⟩, ?_⟩
    show ((net.inputs.set (MNIST_SIDE * y + x) _).get? (MNIST_SIDE * y + x)).map
        NeuronicInput.measure = some v
    rw [List.get?_set_eq_of_lt _ hlt]
    rfl
  · have hnone0 : net.inputs.get? (MNIST_SIDE * y + x) = none := by
      rw [List.get?_eq_none]
      omega
    have hload : net.load_val x y v = none := by
      simp only [CompAENetwork.load_val, hnone0]
    rw [hload, if_neg hlt]
    exact ⟨⟨fun h => absurd h (by simp), fun h => absurd h hlt⟩, rfl⟩

/-- Claim C7 counterexample: `x = 28` is outside `[0, MNIST_SIDE)`, yet on
the 784-input network `load_val 28 0 1` does not fault — it silently
writes measure 1 into the input at flat index 28 (pixel `(0, 1)`). -/
theorem C7_counterexample :
    ¬(28 < MNIST_SIDE) ∧
    (net784.load_val 28 0 1).isSome = true ∧
    ((net784.load_val 28 0 1).bind fun n2 => n2.inputs.get? 28).map NeuronicInput.measure
      = some 1 := by
  decide

/-- Auxiliary: an `Option`-valued `mapM` over a list on which the function
always succeeds returns the list of results. -/
theorem mapM_option_eq_some {α β : Type} (f : α → Option β) (g : α → β) :
    ∀ l : List α, (∀ a ∈ l, f a = some (g a)) → l.mapM f = some (l.map g)
  | [], _ => rfl
  | a :: l, h => by
      rw [List.mapM_cons, h a (List.mem_cons_self a l),
        mapM_option_eq_some f g l (fun b hb => h b (List.mem_cons_of_mem a hb))]
      rfl

/-- Auxiliary: an `Option`-valued `mapM` fails whenever the function fails
on some element. -/
theorem mapM_option_eq_none {α β : Type} (f : α → Option β) :
    ∀ (l : List α) (a : α), a ∈ l → f a = none → l.mapM f = none
  | a0 :: l, a, ha, hfa => by
      rw [List.mapM_cons]
      rcases List.mem_cons.mp ha with h | h
      · subst h
        rw [hfa]
        rfl
      · cases hf0 : f a0 with
        | none => rfl
        | some b =>
            rw [mapM_option_eq_none f l a h hfa]
            rfl

/-- Claim C10 (confirmed): `to_serializable` returns the row-major
`MNIST_SIDE × MNIST_SIDE` matrix of the first `MNIST_SIDE²` weights when
the weight vector is long enough, and panics (`none`) when the neuron was
constructed with fewer inputs than the pixel area. -/
theorem C10_to_serializable_shape (n : CompAENeuron) :
    n.to_serializable
      = if MNIST_SIDE * MNIST_SIDE ≤ n.weights.length
        then some ((List.range MNIST_SIDE).map fun j =>
            (List.range MNIST_SIDE).map fun i => n.weights.getD (j * MNIST_SIDE + i) 0)
        else none := by
  have hside : MNIST_SIDE = 28 := rfl
  by_cases h : MNIST_SIDE * MNIST_SIDE ≤ n.weights.length
  · rw [if_pos h]
    apply mapM_option_eq_some
    intro j hj
    rw [List.mem_range] at hj
    apply mapM_option_eq_some
    intro i hi
    rw [List.mem_range] at hi
    have hlt : j * MNIST_SIDE + i < n.weights.length := by
      rw [hside] at *
      omega
    rw [List.get?_eq_get hlt, List.getD_eq_get?, List.get?_eq_get hlt]
    rfl
  · rw [if_neg h]
    apply mapM_option_eq_none _ _ 27 (by decide)
    apply mapM_option_eq_none _ _ 27 (by decide)
    rw [List.get?_eq_none, hside] at *
    omega

end CompAE

namespace CompAE

/-- The per-zip weight projection of `compute_em` depends only on the
weight list and the input count. -/
theorem zip_snd_map_eq : ∀ (ws : List ℚ) (l1 l2 : List NeuronicInput),
    l1.length = l2.length →
    ((l1.zip ws).map fun p => p.2) = ((l2.zip ws).map fun p => p.2)
  | [], _, _, _ => by simp [List.zip_nil_right]
  | _ :: _, [], [], _ => rfl
  | _ :: _, [], _ :: _, h => by simp at h
  | _ :: _, _ :: _, [], h => by simp at h
  | w :: ws, a :: l1, b :: l2, h => by
      simp only [List.zip_cons_cons, List.map_cons]
      rw [zip_snd_map_eq ws l1 l2 (by simpa using h)]

/-- The weighted-measure projection of `compute_em` depends only on the
weight list and the inputs' loading observables. -/
theorem zip_weighted_map_eq : ∀ (ws : List ℚ) (l1 l2 : List NeuronicInput),
    l1.map NeuronicInput.obs = l2.map NeuronicInput.obs →
    ((l1.zip ws).map fun p => p.2 * p.1.get_measure)
      = ((l2.zip ws).map fun p => p.2 * p.1.get_measure)
  | [], _, _, _ => by simp [List.zip_nil_right]
  | _ :: _, [], [], _ => rfl
  | _ :: _, [], _ :: _, h => by simp at h
  | _ :: _, _ :: _, [], h => by simp at h
  | w :: ws, a :: l1, b :: l2, h => by
      simp only [List.map_cons, List.cons.injEq] at h
      obtain ⟨hab, htail⟩ := h
      have hm : a.measure = b.measure := congrArg Prod.fst hab
      simp only [List.zip_cons_cons, List.map_cons]
      rw [zip_weighted_map_eq ws l1 l2 htail]
      simp [NeuronicInput.get_measure, hm]

/-- `compute_em` depends only on the weight vector and the inputs'
loading observables. -/
theorem compute_em_congr (n1 n2 : CompAENeuron) (l1 l2 : List NeuronicInput)
    (hw : n1.weights = n2.weights)
    (h : l1.map NeuronicInput.obs = l2.map NeuronicInput.obs) :
    n1.compute_em l1 = n2.compute_em l2 := by
  have hlen : l1.length = l2.length := by
    simpa using congrArg List.length h
  simp only [CompAENeuron.compute_em]
  rw [hw, zip_snd_map_eq n2.weights l1 l2 hlen, zip_weighted_map_eq n2.weights l1 l2 h]

/-- The prediction loop preserves equality of the loading observables. -/
theorem applyPredictions_obs_congr (em : ℚ) :
    ∀ (l1 l2 : List NeuronicInput) (ws : List ℚ),
      l1.map NeuronicInput.obs = l2.map NeuronicInput.obs →
      (applyPredictions em l1 ws).map NeuronicInput.obs
        = (applyPredictions em l2 ws).map NeuronicInput.obs
  | [], [], _, _ => rfl
  | [], _ :: _, _, h => by simp at h
  | _ :: _, [], _, h => by simp at h
  | a :: l1, b :: l2, [], h => h
  | a :: l1, b :: l2, w :: ws, h => by
      simp only [List.map_cons, List.cons.injEq] at h
      obtain ⟨hab, htail⟩ := h
      have hm : a.measure = b.measure := congrArg Prod.fst hab
      have ht : a.total_weighted_prediction = b.total_weighted_prediction :=
        congrArg Prod.snd hab
      simp only [applyPredictions, List.map_cons, List.cons.injEq]
      refine ⟨?_, applyPredictions_obs_congr em l1 l2 ws htail⟩
      simp [NeuronicInput.obs, NeuronicInput.incr_total_weighted_prediction, hm, ht]

end CompAE

namespace CompAE

/-- `run_learning_phase` does not depend on the holder state (the only
read, `get_total_weight`, is constant). -/
theorem run_learning_phase_holder_irrel (n : CompAENeuron) (inputs : List NeuronicInput)
    (wh1 wh2 : WeightHolder) :
    n.run_learning_phase inputs wh1 = n.run_learning_phase inputs wh2 := rfl

/-- `cache_reconstruction_error` on inputs with equal loading observables
yields fully equal inputs, whatever the holder states. -/
theorem cache_map_congr : ∀ (l1 l2 : List NeuronicInput) (wh1 wh2 : WeightHolder),
    l1.map NeuronicInput.obs = l2.map NeuronicInput.obs →
    l1.map (fun i => i.cache_reconstruction_error wh1)
      = l2.map (fun i => i.cache_reconstruction_error wh2)
  | [], [], _, _, _ => rfl
  | [], _ :: _, _, _, h => by simp at h
  | _ :: _, [], _, _, h => by simp at h
  | a :: l1, b :: l2, wh1, wh2, h => by
      simp only [List.map_cons, List.cons.injEq] at h ⊢
      obtain ⟨hab, htail⟩ := h
      have hm : a.measure = b.measure := congrArg Prod.fst hab
      have ht : a.total_weighted_prediction = b.total_weighted_prediction :=
        congrArg Prod.snd hab
      refine ⟨?_, cache_map_congr l1 l2 wh1 wh2 htail⟩
      simp [NeuronicInput.cache_reconstruction_error, WeightHolder.get_total_weight, hm, ht]

/-- The prediction sweep on config-equal neurons and observably equal
inputs yields fully equal neuron lists and observably equal input lists,
whatever the holder states. -/
theorem predictionSweep_congr : ∀ (ns1 ns2 : List CompAENeuron)
    (l1 l2 : List NeuronicInput) (wh1 wh2 : WeightHolder),
    ns1.map CompAENeuron.config = ns2.map CompAENeuron.config →
    l1.map NeuronicInput.obs = l2.map NeuronicInput.obs →
    (predictionSweep ns1 l1 wh1).1 = (predictionSweep ns2 l2 wh2).1 ∧
    (predictionSweep ns1 l1 wh1).2.1.map NeuronicInput.obs
      = (predictionSweep ns2 l2 wh2).2.1.map NeuronicInput.obs
  | [], [], l1, l2, wh1, wh2, _, hi => ⟨rfl, hi⟩
  | [], _ :: _, _, _, _, _, hn, _ => by simp at hn
  | _ :: _, [], _, _, _, _, hn, _ => by simp at hn
  | n1 :: ns1, n2 :: ns2, l1, l2, wh1, wh2, hn, hi => by
      simp only [List.map_cons, List.cons.injEq] at hn
      obtain ⟨hc, htail⟩ := hn
      have hname : n1.name = n2.name := congrArg (fun c => c.1) hc
      have hlc : n1.learning_constant = n2.learning_constant :=
        congrArg (fun c => c.2.1) hc
      have hw : n1.weights = n2.weights := congrArg (fun c => c.2.2) hc
      have hem : n1.compute_em l1 = n2.compute_em l2 := compute_em_congr n1 n2 l1 l2 hw hi
      have hneuron : ({ n1 with current_em := n1.compute_em l1 } : CompAENeuron)
          = { n2 with current_em := n2.compute_em l2 } := by
        cases n1
        cases n2
        simp only [CompAENeuron.config, Prod.mk.injEq] at hc
        obtain ⟨h1, h2, h3⟩ := hc
        subst h1
        subst h2
        subst h3
        simpa using hem
      have hinps : (applyPredictions (n1.compute_em l1) l1 n1.weights).map NeuronicInput.obs
          = (applyPredictions (n2.compute_em l2) l2 n2.weights).map NeuronicInput.obs := by
        rw [hem, hw]
        exact applyPredictions_obs_congr (n2.compute_em l2) l1 l2 n2.weights hi
      have ih := predictionSweep_congr ns1 ns2
        (applyPredictions (n1.compute_em l1) l1 n1.weights)
        (applyPredictions (n2.compute_em l2) l2 n2.weights)
        (wh1.incr_weight (n1.compute_em l1)) (wh2.incr_weight (n2.compute_em l2))
        htail hinps
      simp only [predictionSweep, CompAENeuron.run_prediction_phase]
      exact ⟨by rw [hneuron, ih.1], ih.2⟩

/-- `perform_adjustment` written out over the prediction sweep: learning
runs each swept neuron against the cached inputs and the swept holder. -/
theorem perform_adjustment_explicit (a : CompAENetwork) :
    a.perform_adjustment =
      { neurons := (predictionSweep a.neurons a.inputs a.weight_holder).1.map
          fun n => n.run_learning_phase
            ((predictionSweep a.neurons a.inputs a.weight_holder).2.1.map
              fun i => i.cache_reconstruction_error
                (predictionSweep a.neurons a.inputs a.weight_holder).2.2)
            (predictionSweep a.neurons a.inputs a.weight_holder).2.2
        inputs := (predictionSweep a.neurons a.inputs a.weight_holder).2.1.map
          fun i => i.cache_reconstruction_error
            (predictionSweep a.neurons a.inputs a.weight_holder).2.2
        weight_holder := (predictionSweep a.neurons a.inputs a.weight_holder).2.2 } := rfl

/-- `perform_adjustment` on networks agreeing on neuron configurations and
input observables yields fully equal neuron and input collections. -/
theorem perform_adjustment_congr (a b : CompAENetwork)
    (hn : a.neurons.map CompAENeuron.config = b.neurons.map CompAENeuron.config)
    (hi : a.inputs.map NeuronicInput.obs = b.inputs.map NeuronicInput.obs) :
    a.perform_adjustment.neurons = b.perform_adjustment.neurons ∧
    a.perform_adjustment.inputs = b.perform_adjustment.inputs := by
  obtain ⟨h1, h2⟩ := predictionSweep_congr a.neurons b.neurons a.inputs b.inputs
    a.weight_holder b.weight_holder hn hi
  have hcache : (predictionSweep a.neurons a.inputs a.weight_holder).2.1.map
        (fun i => i.cache_reconstruction_error
          (predictionSweep a.neurons a.inputs a.weight_holder).2.2)
      = (predictionSweep b.neurons b.inputs b.weight_holder).2.1.map
        (fun i => i.cache_reconstruction_error
          (predictionSweep b.neurons b.inputs b.weight_holder).2.2) :=
    cache_map_congr _ _ _ _ h2
  rw [perform_adjustment_explicit a, perform_adjustment_explicit b]
  refine ⟨?_, hcache⟩
  rw [h1, hcache]
  exact List.map_congr_left fun n _ => run_learning_phase_holder_irrel n _ _ _

end CompAE


namespace CompAE

/-- `load_val` congruence: the loading-determined projection of the result
is a function of the projection of the argument. -/
theorem load_val_netObs_congr (a b : CompAENetwork) (x y : Nat) (v : ℚ)
    (h : netObs a = netObs b) :
    (a.load_val x y v).map netObs = (b.load_val x y v).map netObs := by
  have hn : a.neurons.map CompAENeuron.config = b.neurons.map CompAENeuron.config :=
    congrArg Prod.fst h
  have hi : a.inputs.map NeuronicInput.obs = b.inputs.map NeuronicInput.obs :=
    congrArg Prod.snd h
  have hlen : a.inputs.length = b.inputs.length := by
    simpa using congrArg List.length hi
  by_cases hlt : MNIST_SIDE * y + x < a.inputs.length
  · have hlt2 : MNIST_SIDE * y + x < b.inputs.length := hlen ▸ hlt
    have ha := List.get?_eq_get hlt
    have hb := List.get?_eq_get hlt2
    have hla : a.load_val x y v = some { a with
        inputs := a.inputs.set (MNIST_SIDE * y + x)
          (((a.inputs.get ⟨MNIST_SIDE * y + x, hlt⟩).load_input_measure
            v).clear_total_weighted_prediction)
        weight_holder := if (x, y) = (0, 0) then a.weight_holder.clear
          else a.weight_holder } := by
      simp only [CompAENetwork.load_val, ha]
    have hlb : b.load_val x y v = some { b with
        inputs := b.inputs.set (MNIST_SIDE * y + x)
          (((b.inputs.get ⟨MNIST_SIDE * y + x, hlt2⟩).load_input_measure
            v).clear_total_weighted_prediction)
        weight_holder := if (x, y) = (0, 0) then b.weight_holder.clear
          else b.weight_holder } := by
      simp only [CompAENetwork.load_val, hb]
    rw [hla, hlb]
    simp only [Option.map_some', Option.some.injEq, netObs, Prod.mk.injEq]
    refine ⟨hn, ?_⟩
    rw [List.map_set, List.map_set, hi]
    rfl
  · have hlt2 : ¬(MNIST_SIDE * y + x < b.inputs.length) := hlen ▸ hlt
    have hla : a.load_val x y v = none := by
      simp only [CompAENetwork.load_val, (List.get?_eq_none).mpr (Nat.le_of_not_lt hlt)]
    have hlb : b.load_val x y v = none := by
      simp only [CompAENetwork.load_val, (List.get?_eq_none).mpr (Nat.le_of_not_lt hlt2)]
    rw [hla, hlb]

/-- Folding `load_val` over any pixel list preserves the projection
congruence (`none` models a panic, on either side simultaneously). -/
theorem load_fold_netObs_congr (img : Nat → Nat → ℚ) :
    ∀ (ps : List (Nat × Nat)) (a b : CompAENetwork), netObs a = netObs b →
      (ps.foldlM (fun (acc : CompAENetwork) (p : Nat × Nat) =>
          acc.load_val p.1 p.2 (img p.1 p.2)) a).map netObs
        = (ps.foldlM (fun (acc : CompAENetwork) (p : Nat × Nat) =>
          acc.load_val p.1 p.2 (img p.1 p.2)) b).map netObs
  | [], a, b, h => by
      simp only [List.foldlM_nil, Option.pure_def, Option.map_some']
      exact congrArg some h
  | p :: ps, a, b, h => by
      have hl := load_val_netObs_congr a b p.1 p.2 (img p.1 p.2) h
      simp only [List.foldlM_cons]
      cases ha : a.load_val p.1 p.2 (img p.1 p.2) with
      | none =>
          cases hb : b.load_val p.1 p.2 (img p.1 p.2) with
          | none => rfl
          | some b2 =>
              rw [ha, hb] at hl
              simp at hl
      | some a2 =>
          cases hb : b.load_val p.1 p.2 (img p.1 p.2) with
          | none =>
              rw [ha, hb] at hl
              simp at hl
          | some b2 =>
              rw [ha, hb, Option.map_some', Option.map_some', Option.some.injEq] at hl
              simp only [Option.bind_eq_bind, Option.some_bind]
              exact load_fold_netObs_congr img ps a2 b2 hl

/-- `perform_adjustment` preserves the projection congruence. -/
theorem perform_adjustment_netObs_congr (a b : CompAENetwork)
    (h : netObs a = netObs b) :
    netObs a.perform_adjustment = netObs b.perform_adjustment := by
  obtain ⟨h1, h2⟩ := perform_adjustment_congr a b (congrArg Prod.fst h) (congrArg Prod.snd h)
  simp only [netObs, h1, h2]

/-- One harness step (load an image, adjust) preserves the projection
congruence. -/
theorem train_step_netObs_congr (a b : CompAENetwork) (img : Nat → Nat → ℚ)
    (h : netObs a = netObs b) :
    (a.train_step img).map netObs = (b.train_step img).map netObs := by
  have hl : (a.load_image img).map netObs = (b.load_image img).map netObs :=
    load_fold_netObs_congr img pixelCoords a b h
  show ((a.load_image img).map CompAENetwork.perform_adjustment).map netObs
      = ((b.load_image img).map CompAENetwork.perform_adjustment).map netObs
  cases ha : a.load_image img with
  | none =>
      cases hb : b.load_image img with
      | none => rfl
      | some b2 =>
          rw [ha, hb] at hl
          simp at hl
  | some a2 =>
      cases hb : b.load_image img with
      | none =>
          rw [ha, hb] at hl
          simp at hl
      | some b2 =>
          rw [ha, hb, Option.map_some', Option.map_some', Option.some.injEq] at hl
          simp only [Option.map_some']
          exact congrArg some (perform_adjustment_netObs_congr a2 b2 hl)

/-- A whole training run preserves the projection congruence. -/
theorem train_run_netObs_congr :
    ∀ (imgs : List (Nat → Nat → ℚ)) (a b : CompAENetwork), netObs a = netObs b →
      (a.train_run imgs).map netObs = (b.train_run imgs).map netObs
  | [], a, b, h => by
      show ((List.foldlM CompAENetwork.train_step a []).map netObs)
          = ((List.foldlM CompAENetwork.train_step b []).map netObs)
      simp only [List.foldlM_nil, Option.pure_def, Option.map_some']
      exact congrArg some h
  | img :: imgs, a, b, h => by
      have hs := train_step_netObs_congr a b img h
      show ((List.foldlM CompAENetwork.train_step a (img :: imgs)).map netObs)
          = ((List.foldlM CompAENetwork.train_step b (img :: imgs)).map netObs)
      simp only [List.foldlM_cons]
      cases ha : a.train_step img with
      | none =>
          cases hb : b.train_step img with
          | none => rfl
          | some b2 =>
              rw [ha, hb] at hs
              simp at hs
      | some a2 =>
          cases hb : b.train_step img with
          | none =>
              rw [ha, hb] at hs
              simp at hs
          | some b2 =>
              rw [ha, hb, Option.map_some', Option.map_some', Option.some.injEq] at hs
              simp only [Option.bind_eq_bind, Option.some_bind]
              exact train_run_netObs_congr imgs a2 b2 hs

/-- Claim C9 (confirmed): the training pipeline is deterministic — for two
networks with the same weight-initialization (equal neuron configurations)
and the same input observables, running `load_image` + `perform_adjustment`
over the same image sequence yields identical final weight vectors for
every neuron, regardless of the initial holder state, cached errors and
cached activations. -/
theorem C9_deterministic_pipeline (net1 net2 : CompAENetwork)
    (imgs : List (Nat → Nat → ℚ))
    (hn : net1.neurons.map CompAENeuron.config = net2.neurons.map CompAENeuron.config)
    (hi : net1.inputs.map NeuronicInput.obs = net2.inputs.map NeuronicInput.obs) :
    (net1.train_run imgs).map (fun m => m.neurons.map CompAENeuron.weights)
      = (net2.train_run imgs).map (fun m => m.neurons.map CompAENeuron.weights) := by
  have hbase : netObs net1 = netObs net2 := by
    simp only [netObs, Prod.mk.injEq]
    exact ⟨hn, hi⟩
  have key := train_run_netObs_congr imgs net1 net2 hbase
  have hproj : ∀ o : Option CompAENetwork,
      (o.map fun m => m.neurons.map CompAENeuron.weights)
        = ((o.map netObs).map fun q => q.1.map fun c => c.2.2) := by
    intro o
    cases o with
    | none => rfl
    | some m =>
        simp only [Option.map_some', Option.some.injEq, netObs, List.map_map]
        rfl
  rw [hproj, hproj, key]

/-- Claim C9 witness: two concrete one-neuron networks that differ in the
holder state, the cached error and the cached activation — but share the
configuration and loaded observables — give the same final weights (on the
empty image list). -/
theorem C9_witness :
    ((CompAENetwork.mk [CompAENeuron.mk "0" 1 [4] 0] [⟨1, 0, 0⟩] ⟨0⟩).train_run []).map
        (fun m => m.neurons.map CompAENeuron.weights)
      = ((CompAENetwork.mk [CompAENeuron.mk "0" 1 [4] 3] [⟨1, 0, 7⟩] ⟨5⟩).train_run []).map
        (fun m => m.neurons.map CompAENeuron.weights) :=
  C9_deterministic_pipeline _ _ [] rfl rfl

end CompAE
